import Mathlib

/-!
Verification development for the aggregation service.

The service joins two independently arriving sides (text / image embeddings)
that share an id, stored in a Redis-like key-value store:

* per id, a hash mapping field names to string values
  (fields `EMBEDDINGS_TEXT`, `EMBEDDINGS_IMAGE` hold JSON-dumped payloads,
  field `index_name` holds the partition key);
* two readiness sets (one per side) used to detect completeness via
  set intersection.

`save_embeddings_batch` embeds `app/services/redis_service.py`,
`ingest_combined_data_bulk` embeds `app/services/ingestion_service.py`.
Redis sets are modelled as duplicate-free-by-construction lists; every
theorem below uses them only through membership.  Hashes are modelled as
functions `String → Option String` (a Redis hash field always has a value,
so `none` means "field absent").
-/

/-- A Redis hash: field name to stored string value, `none` = field absent. -/
def Hash : Type := String → Option String

/-- One element of a submitted batch, mirroring `app/models/data_model.py`
`Embedding`: `id`, `embedding_type` (an unconstrained string at the public
interface), `embedding` (ordered numeric payload), `index_name`. -/
structure Entry where
  id : String
  embedding_type : String
  embedding : List Int
  index_name : String
deriving DecidableEq

/-- The shared store: one hash per key, plus the two readiness sets
(`text_embedding_ids`, `image_embedding_ids` in the source). -/
@[ext]
structure Store where
  records : String → Hash
  textSet : List String
  imageSet : List String

/-- The store with no records and empty readiness sets. -/
def Store.empty : Store :=
  { records := fun _ _ => none, textSet := [], imageSet := [] }

/-- `json.dumps` on a list of numbers (default separator is a comma and a
space); only injectivity and the leading bracket matter below. -/
def dumps (e : List Int) : String :=
  "[" ++ String.intercalate ", " (e.map toString) ++ "]"

/-- Redis `SADD`: add a member to a set; a no-op when already present. -/
def sadd (s : List String) (x : String) : List String :=
  if x ∈ s then s else s ++ [x]

/-- Redis `SINTER`: members present in both sets. -/
def sinter (a b : List String) : List String :=
  a.filter (fun x => decide (x ∈ b))

/-- The dict queued by lines 34-41 of `redis_service.py` for one entry:
`existing_data` (the hash read *before* the pipeline executes) updated with
the entry payload under its `embedding_type` and with `index_name`.  The
`index_name` assignment comes second in the source, so it wins when
`embedding_type` collides with the literal field name `index_name`. -/
def entryMapping (orig : Hash) (e : Entry) : Hash :=
  fun f =>
    if f = "index_name" then some e.index_name
    else if f = e.embedding_type then some (dumps e.embedding)
    else orig f

/-- Redis `HSET key mapping`: every field present in the mapping is set,
all other fields of the current hash are untouched. -/
def applyHset (cur mapping : Hash) : Hash :=
  fun f =>
    match mapping f with
    | some v => some v
    | none => cur f

/-- One queued iteration of the write pipeline (lines 26-47): the `HSET`
with the mapping computed from `orig` (the store as of the reads, which all
happen before `pipe.execute()`), then the conditional `SADD` into the
readiness set matching the entry's type. -/
def writeStep (orig : Store) (s : Store) (e : Entry) : Store :=
  { records := fun k =>
      if k = e.id then applyHset (s.records e.id) (entryMapping (orig.records e.id) e)
      else s.records k
    textSet :=
      if e.embedding_type = "EMBEDDINGS_TEXT" then sadd s.textSet e.id else s.textSet
    imageSet :=
      if e.embedding_type = "EMBEDDINGS_IMAGE" then sadd s.imageSet e.id else s.imageSet }

/-- Executing the whole write pipeline: the queued commands run in entry
order, all mappings having been computed against `orig`. -/
def writePhase (orig cur : Store) (batch : List Entry) : Store :=
  batch.foldl (writeStep orig) cur

/-- The combined view built at lines 67-72: id, both stored payload strings
(the source applies `json.loads`, a bijection on dumped values, so the wire
strings are kept), and the partition key.  Line 71 of the source indexes
`combined_data['index_name']` unconditionally; hashes written by this
service always contain the field, so the `Option` is `some` on every hash
this code produces. -/
structure CompletedRecord where
  id : String
  text_embedding : String
  image_embedding : String
  index_name : Option String
deriving DecidableEq

/-- Step 4 of `save_embeddings_batch` for one ready id: the defensive
re-check that the fetched hash truly contains both sides, and the
construction of the combined record. -/
def formatRecord (s : Store) (x : String) : Option CompletedRecord :=
  match s.records x "EMBEDDINGS_TEXT", s.records x "EMBEDDINGS_IMAGE" with
  | some t, some i => some ⟨x, t, i, s.records x "index_name"⟩
  | _, _ => none

/-- `save_embeddings_batch` (`app/services/redis_service.py`, lines 8-74):
write pipeline, one `SINTER` over the two readiness sets of the whole
store, bulk fetch of every ready id, defensive re-check and formatting.
Returns the new store state and the list of combined records. -/
def save_embeddings_batch (s : Store) (batch : List Entry) :
    Store × List CompletedRecord :=
  let s1 := writePhase s s batch
  let ready := sinter s1.textSet s1.imageSet
  (s1, ready.filterMap (formatRecord s1))

/-- The two sides of a pair (spec §3: exactly two sides exist). -/
inductive Side where
  | text
  | image
deriving DecidableEq

/-- The hash field a side is stored under. -/
def Side.field : Side → String
  | .text => "EMBEDDINGS_TEXT"
  | .image => "EMBEDDINGS_IMAGE"

/-- The opposite side. -/
def Side.other : Side → Side
  | .text => .image
  | .image => .text

/-- Side named by an entry's `embedding_type`, when recognized. -/
def Entry.sideOf (e : Entry) : Option Side :=
  if e.embedding_type = "EMBEDDINGS_TEXT" then some Side.text
  else if e.embedding_type = "EMBEDDINGS_IMAGE" then some Side.image
  else none

/-- Modelled from the spec: the single-submission path.  `routes.py` line 13
calls `aggregator.aggregate_data(id, embedding_type, embedding)` but no file
under `src/` defines `aggregate_data` (the `Aggregator` class only defines
`aggregate_data_batch`).  Following §4.2 of the spec: read the record, merge
the new side field-wise (same field layout as the batch path writes), write
it back, maintain the side's readiness set (§4.1 `markSideReady`), and
return a `CompletedRecord` exactly when both sides are now present. -/
def submit (s : Store) (id : String) (side : Side) (payload : List Int)
    (index_name : String) : Store × Option CompletedRecord :=
  let h := s.records id
  let h' : Hash := fun f =>
    if f = "index_name" then some index_name
    else if f = side.field then some (dumps payload)
    else h f
  let s' : Store :=
    { records := fun k => if k = id then h' else s.records k
      textSet := if side = Side.text then sadd s.textSet id else s.textSet
      imageSet := if side = Side.image then sadd s.imageSet id else s.imageSet }
  let out : Option CompletedRecord :=
    match h' "EMBEDDINGS_TEXT", h' "EMBEDDINGS_IMAGE" with
    | some t, some i => some ⟨id, t, i, h' "index_name"⟩
    | _, _ => none
  (s', out)

/-- The single path applied to one batch entry (entries reaching the single
path carry a recognized side, per §6 validation; an unrecognized type is a
no-op here and is excluded by hypothesis in every theorem using this). -/
def submitEntry (s : Store) (e : Entry) : Store × Option CompletedRecord :=
  match e.sideOf with
  | some sd => submit s e.id sd e.embedding e.index_name
  | none => (s, none)

/-- Sequential single-path submission of a list of entries; returns the
final store and the ids of the completion signals, in order. -/
def submitAll : Store → List Entry → Store × List String
  | s, [] => (s, [])
  | s, e :: rest =>
    let step := submitEntry s e
    let tail := submitAll step.1 rest
    (tail.1, (match step.2 with | some r => [r.id] | none => []) ++ tail.2)

/-- Running a sequence of batch calls, concatenating the outputs. -/
def runBatches : Store → List (List Entry) → Store × List CompletedRecord
  | s, [] => (s, [])
  | s, b :: bs =>
    let step := save_embeddings_batch s b
    let tail := runBatches step.1 bs
    (tail.1, step.2 ++ tail.2)

/-- A response of the downstream ingestion sink. -/
structure SinkResponse where
  status_code : Nat
  body : String
deriving DecidableEq

/-- The downstream sink, injected: maps the partition key of the URL and
the forwarded batch to a response. -/
def Sink : Type := Option String → List CompletedRecord → SinkResponse

/-- Error taxonomy of the forwarder: the `ValueError` raised on a mixed
batch, and the generic exception raised on a non-200 sink response. -/
inductive IngestError where
  | mixedPartition
  | sinkRejected (text : String)
deriving DecidableEq

/-- Modelled from the spec: `delete_keys_from_redis` is imported by
`ingestion_service.py` line 2 from `redis_service`, but no file under
`src/` defines it.  Per §4.1 `deleteRecords` / §6 "delete-keys": a
pipelined delete of the hash keys; it does not touch the readiness sets
(which is why the spec calls them a hint, not ground truth). -/
def delete_keys_from_redis (s : Store) (ids : List String) : Store :=
  { s with records := fun k => if k ∈ ids then (fun _ => none) else s.records k }

/-- The distinct partition keys of a forwarding batch: line 15's
`set(data['index_name'] for data in data_list)`. -/
def ingestPartitions (data_list : List CompletedRecord) : List (Option String) :=
  (data_list.map (fun d => d.index_name)).dedup

/-- The sink response for a batch: the POST of line 24 goes to the URL named
by the single partition key of the batch. -/
def ingestResponse (sink : Sink) (data_list : List CompletedRecord) : SinkResponse :=
  sink ((ingestPartitions data_list).headD none) data_list

/-- `ingest_combined_data_bulk` (`app/services/ingestion_service.py`):
empty batch returns `None`; a batch spanning more than one `index_name`
raises `ValueError` before the sink is contacted; otherwise the batch is
posted to the sink, and on status 200 the forwarded keys are cleared and
`(status, body)` returned, while any other status raises.  The returned
store is the store as the caller observes it afterwards: unchanged on
every non-200 path. -/
def ingest_combined_data_bulk (sink : Sink) (s : Store)
    (data_list : List CompletedRecord) :
    Store × Except IngestError (Option (Nat × String)) :=
  if data_list.isEmpty then (s, Except.ok none)
  else if 1 < (ingestPartitions data_list).length then
    (s, Except.error IngestError.mixedPartition)
  else if (ingestResponse sink data_list).status_code = 200 then
    (delete_keys_from_redis s (data_list.map (fun d => d.id)),
     Except.ok (some ((ingestResponse sink data_list).status_code,
       (ingestResponse sink data_list).body)))
  else (s, Except.error (IngestError.sinkRejected (ingestResponse sink data_list).body))

/-- Some entry of `L` targets id `x` with embedding type `fld`. -/
def providesField (L : List Entry) (x fld : String) : Prop :=
  ∃ e, e ∈ L ∧ e.id = x ∧ e.embedding_type = fld

/-- Both sides of `x` are ready in the readiness sets and truly present in
the stored record. -/
def completeNow (s : Store) (x : String) : Prop :=
  x ∈ s.textSet ∧ x ∈ s.imageSet ∧
    (s.records x "EMBEDDINGS_TEXT").isSome ∧ (s.records x "EMBEDDINGS_IMAGE").isSome

/-- Module-level names defined by `app/services/redis_service.py`. -/
def redisServiceDefinedNames : List String :=
  ["redis_client", "save_embeddings_batch"]

/-- The name `app/services/ingestion_service.py` line 2 imports from the
store module, and which its success branch (line 29) calls for cleanup. -/
def ingestionServiceCleanupName : String :=
  "delete_keys_from_redis"

/-! ### Basic lemmas about the store primitives -/

theorem mem_sadd (l : List String) (y x : String) :
    x ∈ sadd l y ↔ x ∈ l ∨ x = y := by
  unfold sadd
  split
  · rename_i hy
    constructor
    · exact fun h => Or.inl h
    · rintro (h | rfl)
      · exact h
      · exact hy
  · simp [List.mem_append]

theorem mem_sinter (a b : List String) (x : String) :
    x ∈ sinter a b ↔ x ∈ a ∧ x ∈ b := by
  unfold sinter
  simp [List.mem_filter]

theorem providesField_cons (e : Entry) (L : List Entry) (x fld : String) :
    providesField (e :: L) x fld ↔
      (e.id = x ∧ e.embedding_type = fld) ∨ providesField L x fld := by
  unfold providesField
  constructor
  · rintro ⟨e', he', hid, hty⟩
    rcases List.mem_cons.1 he' with rfl | hmem
    · exact Or.inl ⟨hid, hty⟩
    · exact Or.inr ⟨e', hmem, hid, hty⟩
  · rintro (⟨hid, hty⟩ | ⟨e', hmem, hid, hty⟩)
    · exact ⟨e, List.mem_cons_self _ _, hid, hty⟩
    · exact ⟨e', List.mem_cons_of_mem _ hmem, hid, hty⟩

theorem providesField_nil (x fld : String) : ¬ providesField [] x fld := by
  rintro ⟨e, he, -⟩
  exact absurd he (List.not_mem_nil e)

theorem applyHset_isSome (cur mapping : Hash) (f : String) :
    (applyHset cur mapping f).isSome ↔ (mapping f).isSome ∨ (cur f).isSome := by
  unfold applyHset
  cases mapping f <;> simp

theorem entryMapping_isSome (orig : Hash) (e : Entry) (f : String)
    (hf : f ≠ "index_name") :
    (entryMapping orig e f).isSome ↔ f = e.embedding_type ∨ (orig f).isSome := by
  unfold entryMapping
  rw [if_neg hf]
  split
  · rename_i h
    simp [h]
  · rename_i h
    simp [h]

/-! ### Effect of the write pipeline on the readiness sets and records -/

theorem writePhase_cons (orig c : Store) (e : Entry) (L : List Entry) :
    writePhase orig c (e :: L) = writePhase orig (writeStep orig c e) L := rfl

theorem mem_writePhase_textSet (orig : Store) (L : List Entry) :
    ∀ c x, x ∈ (writePhase orig c L).textSet ↔
      x ∈ c.textSet ∨ providesField L x "EMBEDDINGS_TEXT" := by
  induction L with
  | nil =>
    intro c x
    simp [writePhase, providesField_nil]
  | cons e L ih =>
    intro c x
    rw [writePhase_cons, ih, providesField_cons]
    have hstep : x ∈ (writeStep orig c e).textSet ↔
        x ∈ c.textSet ∨ (e.id = x ∧ e.embedding_type = "EMBEDDINGS_TEXT") := by
      unfold writeStep
      split
      · rename_i hty
        rw [mem_sadd]
        constructor
        · rintro (h | rfl)
          · exact Or.inl h
          · exact Or.inr ⟨rfl, hty⟩
        · rintro (h | ⟨rfl, -⟩)
          · exact Or.inl h
          · exact Or.inr rfl
      · rename_i hty
        constructor
        · exact fun h => Or.inl h
        · rintro (h | ⟨-, hty'⟩)
          · exact h
          · exact absurd hty' hty
    rw [hstep]
    tauto

theorem mem_writePhase_imageSet (orig : Store) (L : List Entry) :
    ∀ c x, x ∈ (writePhase orig c L).imageSet ↔
      x ∈ c.imageSet ∨ providesField L x "EMBEDDINGS_IMAGE" := by
  induction L with
  | nil =>
    intro c x
    simp [writePhase, providesField_nil]
  | cons e L ih =>
    intro c x
    rw [writePhase_cons, ih, providesField_cons]
    have hstep : x ∈ (writeStep orig c e).imageSet ↔
        x ∈ c.imageSet ∨ (e.id = x ∧ e.embedding_type = "EMBEDDINGS_IMAGE") := by
      have hdef : (writeStep orig c e).imageSet =
          if e.embedding_type = "EMBEDDINGS_IMAGE" then sadd c.imageSet e.id
          else c.imageSet := rfl
      rw [hdef]
      split
      · rename_i hty
        rw [mem_sadd]
        constructor
        · rintro (h | rfl)
          · exact Or.inl h
          · exact Or.inr ⟨rfl, hty⟩
        · rintro (h | ⟨rfl, -⟩)
          · exact Or.inl h
          · exact Or.inr rfl
      · rename_i hty
        constructor
        · exact fun h => Or.inl h
        · rintro (h | ⟨-, hty'⟩)
          · exact h
          · exact absurd hty' hty
    rw [hstep]
    tauto

theorem records_writeStep_ne (orig c : Store) (e : Entry) (x : String)
    (h : ¬ x = e.id) : (writeStep orig c e).records x = c.records x := by
  unfold writeStep
  simp [h]

theorem records_writePhase_isSome (orig : Store) (fld : String)
    (hf : fld ≠ "index_name") (L : List Entry) :
    ∀ c x, (∀ f, (orig.records x f).isSome → (c.records x f).isSome) →
      (((writePhase orig c L).records x fld).isSome ↔
        (c.records x fld).isSome ∨ providesField L x fld) := by
  induction L with
  | nil =>
    intro c x _
    simp [writePhase, providesField_nil]
  | cons e L ih =>
    intro c x hdom
    rw [writePhase_cons, providesField_cons]
    by_cases hx : x = e.id
    · subst hx
      have hrec : (writeStep orig c e).records e.id =
          applyHset (c.records e.id) (entryMapping (orig.records e.id) e) := by
        unfold writeStep
        simp
      have hdom' : ∀ f, (orig.records e.id f).isSome →
          ((writeStep orig c e).records e.id f).isSome := by
        intro f hor
        rw [hrec, applyHset_isSome]
        exact Or.inr (hdom f hor)
      rw [ih (writeStep orig c e) e.id hdom', hrec, applyHset_isSome,
        entryMapping_isSome _ _ _ hf]
      have hdomf := hdom fld
      have hsym : fld = e.embedding_type ↔ e.embedding_type = fld := eq_comm
      have hrefl : e.id = e.id := rfl
      tauto
    · have hrec : (writeStep orig c e).records x = c.records x :=
        records_writeStep_ne orig c e x hx
      have hdom' : ∀ f, (orig.records x f).isSome →
          ((writeStep orig c e).records x f).isSome := by
        intro f hor
        rw [hrec]
        exact hdom f hor
      rw [ih (writeStep orig c e) x hdom', hrec]
      have hne : ¬ (e.id = x) := fun h => hx h.symm
      tauto

theorem records_writePhase_ne (orig : Store) (L : List Entry) :
    ∀ c x, (∀ e ∈ L, ¬ x = e.id) → (writePhase orig c L).records x = c.records x := by
  induction L with
  | nil =>
    intro c x _
    rfl
  | cons e L ih =>
    intro c x hx
    rw [writePhase_cons, ih (writeStep orig c e) x
      (fun e' he' => hx e' (List.mem_cons_of_mem _ he')),
      records_writeStep_ne orig c e x (hx e (List.mem_cons_self _ _))]

/-! ### The formatted output of the batch path -/

theorem formatRecord_eq_some (s : Store) (x : String) (r : CompletedRecord) :
    formatRecord s x = some r ↔
      r.id = x ∧ s.records x "EMBEDDINGS_TEXT" = some r.text_embedding ∧
        s.records x "EMBEDDINGS_IMAGE" = some r.image_embedding ∧
        r.index_name = s.records x "index_name" := by
  unfold formatRecord
  cases ht : s.records x "EMBEDDINGS_TEXT" with
  | none =>
    cases hi : s.records x "EMBEDDINGS_IMAGE" <;> simp
  | some t =>
    cases hi : s.records x "EMBEDDINGS_IMAGE" with
    | none => simp
    | some i =>
      constructor
      · intro h
        obtain rfl := Option.some_injective _ h
        exact ⟨rfl, rfl, rfl, rfl⟩
      · rintro ⟨hid, hte, him, hidx⟩
        cases r with
        | mk rid rte rim ridx =>
          obtain rfl := Option.some_injective _ hte
          obtain rfl := Option.some_injective _ him
          simp_all

theorem formatRecord_isSome (s : Store) (x : String) :
    (formatRecord s x).isSome ↔
      (s.records x "EMBEDDINGS_TEXT").isSome ∧
        (s.records x "EMBEDDINGS_IMAGE").isSome := by
  unfold formatRecord
  cases s.records x "EMBEDDINGS_TEXT" <;>
    cases s.records x "EMBEDDINGS_IMAGE" <;> simp

theorem mem_save_snd (s : Store) (L : List Entry) (r : CompletedRecord) :
    r ∈ (save_embeddings_batch s L).2 ↔
      (r.id ∈ (writePhase s s L).textSet ∧ r.id ∈ (writePhase s s L).imageSet) ∧
        (writePhase s s L).records r.id "EMBEDDINGS_TEXT" = some r.text_embedding ∧
        (writePhase s s L).records r.id "EMBEDDINGS_IMAGE" = some r.image_embedding ∧
        r.index_name = (writePhase s s L).records r.id "index_name" := by
  unfold save_embeddings_batch
  rw [List.mem_filterMap]
  constructor
  · rintro ⟨x, hx, hfmt⟩
    rw [formatRecord_eq_some] at hfmt
    obtain ⟨rfl, h1, h2, h3⟩ := hfmt
    rw [mem_sinter] at hx
    exact ⟨hx, h1, h2, h3⟩
  · rintro ⟨hmem, h1, h2, h3⟩
    refine ⟨r.id, ?_, ?_⟩
    · rw [mem_sinter]
      exact hmem
    · rw [formatRecord_eq_some]
      exact ⟨rfl, h1, h2, h3⟩

theorem mem_save_ids (s : Store) (L : List Entry) (x : String) :
    x ∈ (save_embeddings_batch s L).2.map CompletedRecord.id ↔
      completeNow (writePhase s s L) x := by
  rw [List.mem_map]
  unfold completeNow
  constructor
  · rintro ⟨r, hr, rfl⟩
    rw [mem_save_snd] at hr
    obtain ⟨⟨hm1, hm2⟩, h1, h2, -⟩ := hr
    exact ⟨hm1, hm2, by simp [h1], by simp [h2]⟩
  · rintro ⟨hm1, hm2, h1, h2⟩
    obtain ⟨t, ht⟩ := Option.isSome_iff_exists.1 h1
    obtain ⟨i, hi⟩ := Option.isSome_iff_exists.1 h2
    refine ⟨⟨x, t, i, (writePhase s s L).records x "index_name"⟩, ?_, rfl⟩
    rw [mem_save_snd]
    exact ⟨⟨hm1, hm2⟩, ht, hi, rfl⟩

/-! ### Relating the batch write pipeline to sequential single submissions -/

theorem sideOf_text_type {e : Entry} (h : e.sideOf = some Side.text) :
    e.embedding_type = "EMBEDDINGS_TEXT" := by
  unfold Entry.sideOf at h
  split at h
  · assumption
  · split at h <;> simp_all

theorem sideOf_image_type {e : Entry} (h : e.sideOf = some Side.image) :
    e.embedding_type = "EMBEDDINGS_IMAGE" ∧
      e.embedding_type ≠ "EMBEDDINGS_TEXT" := by
  unfold Entry.sideOf at h
  split at h
  · simp_all
  · split at h
    · rename_i h1 h2
      exact ⟨h2, h1⟩
    · simp_all

theorem applyHset_entryMapping_self (orig : Hash) (e : Entry) :
    applyHset orig (entryMapping orig e) = fun f =>
      if f = "index_name" then some e.index_name
      else if f = e.embedding_type then some (dumps e.embedding)
      else orig f := by
  funext f
  unfold applyHset entryMapping
  by_cases h1 : f = "index_name"
  · simp [h1]
  · by_cases h2 : f = e.embedding_type
    · subst h2
      simp [h1]
    · simp [h1, h2]
      cases orig f <;> simp

theorem submitEntry_fst (s : Store) (e : Entry) (sd : Side)
    (h : e.sideOf = some sd) :
    (submitEntry s e).1 = Store.mk
      (fun k => if k = e.id then (fun f =>
        if f = "index_name" then some e.index_name
        else if f = sd.field then some (dumps e.embedding)
        else s.records e.id f) else s.records k)
      (if sd = Side.text then sadd s.textSet e.id else s.textSet)
      (if sd = Side.image then sadd s.imageSet e.id else s.imageSet) := by
  unfold submitEntry
  rw [h]
  rfl

theorem writeStep_eq_submitEntry_fst (s : Store) (e : Entry) (sd : Side)
    (h : e.sideOf = some sd) : writeStep s s e = (submitEntry s e).1 := by
  rw [submitEntry_fst s e sd h]
  cases sd with
  | text =>
    have hty := sideOf_text_type h
    unfold writeStep
    rw [applyHset_entryMapping_self, hty]
    simp [Side.field]
  | image =>
    obtain ⟨hty, hne⟩ := sideOf_image_type h
    unfold writeStep
    rw [applyHset_entryMapping_self, hty]
    simp [Side.field]

theorem writeStep_orig_congr (orig orig' c : Store) (e : Entry)
    (h : orig.records e.id = orig'.records e.id) :
    writeStep orig c e = writeStep orig' c e := by
  unfold writeStep
  rw [h]

theorem writePhase_orig_congr (L : List Entry) :
    ∀ orig orig' c, (∀ e ∈ L, orig.records e.id = orig'.records e.id) →
      writePhase orig c L = writePhase orig' c L := by
  induction L with
  | nil =>
    intro orig orig' c _
    rfl
  | cons e L ih =>
    intro orig orig' c h
    rw [writePhase_cons, writePhase_cons,
      writeStep_orig_congr orig orig' c e (h e (List.mem_cons_self _ _)),
      ih orig orig' (writeStep orig' c e)
        (fun e' he' => h e' (List.mem_cons_of_mem _ he'))]

theorem submitEntry_records_ne (s : Store) (e : Entry) (x : String)
    (h : ¬ x = e.id) : (submitEntry s e).1.records x = s.records x := by
  unfold submitEntry
  cases hs : e.sideOf with
  | none => rfl
  | some sd =>
    unfold submit
    simp [h]

theorem writePhase_eq_submitAll (L : List Entry) :
    ∀ s, (L.map Entry.id).Nodup → (∀ e ∈ L, (Entry.sideOf e).isSome) →
      writePhase s s L = (submitAll s L).1 := by
  induction L with
  | nil =>
    intro s _ _
    rfl
  | cons e L ih =>
    intro s hnd hrec
    obtain ⟨sd, hsd⟩ := Option.isSome_iff_exists.1 (hrec e (List.mem_cons_self _ _))
    have hnd' : (L.map Entry.id).Nodup := (List.nodup_cons.1 (by simpa using hnd)).2
    have hid : e.id ∉ L.map Entry.id := (List.nodup_cons.1 (by simpa using hnd)).1
    have hstep := writeStep_eq_submitEntry_fst s e sd hsd
    have hcongr : writePhase s ((submitEntry s e).1) L =
        writePhase ((submitEntry s e).1) ((submitEntry s e).1) L := by
      apply writePhase_orig_congr
      intro e' he'
      have hne : ¬ e'.id = e.id := by
        intro hcontra
        exact hid (hcontra ▸ List.mem_map_of_mem Entry.id he')
      exact (submitEntry_records_ne s e e'.id hne).symm
    calc writePhase s s (e :: L)
        = writePhase s ((submitEntry s e).1) L := by
          rw [writePhase_cons, hstep]
      _ = writePhase ((submitEntry s e).1) ((submitEntry s e).1) L := hcongr
      _ = (submitAll ((submitEntry s e).1) L).1 := by
          apply ih
          · exact hnd'
          · exact fun e' he' => hrec e' (List.mem_cons_of_mem _ he')
      _ = (submitAll s (e :: L)).1 := rfl

theorem submit_snd_text (s : Store) (id : String) (p : List Int) (idx : String) :
    (submit s id Side.text p idx).2 =
      match s.records id "EMBEDDINGS_IMAGE" with
      | some i => some ⟨id, dumps p, i, some idx⟩
      | none => none := by
  unfold submit
  simp only [Side.field]
  cases s.records id "EMBEDDINGS_IMAGE" <;> simp

theorem submit_snd_image (s : Store) (id : String) (p : List Int) (idx : String) :
    (submit s id Side.image p idx).2 =
      match s.records id "EMBEDDINGS_TEXT" with
      | some t => some ⟨id, t, dumps p, some idx⟩
      | none => none := by
  unfold submit
  simp only [Side.field]
  cases s.records id "EMBEDDINGS_TEXT" <;> simp

theorem submitAll_snd_cons (s : Store) (e : Entry) (L : List Entry) :
    (submitAll s (e :: L)).2 =
      (match (submitEntry s e).2 with
       | some r => [r.id]
       | none => ([] : List String)) ++ (submitAll (submitEntry s e).1 L).2 := rfl

theorem submitEntry_signal_ids (s : Store) (e : Entry) (sd : Side)
    (hsd : e.sideOf = some sd) (x : String) :
    (x ∈ match (submitEntry s e).2 with
         | some r => [r.id]
         | none => ([] : List String)) ↔
      x = e.id ∧ (s.records e.id (Side.other sd).field).isSome := by
  unfold submitEntry
  rw [hsd]
  cases sd with
  | text =>
    rw [submit_snd_text]
    cases hr : s.records e.id "EMBEDDINGS_IMAGE" with
    | some i => simp [Side.other, Side.field, hr]
    | none => simp [Side.other, Side.field, hr]
  | image =>
    rw [submit_snd_image]
    cases hr : s.records e.id "EMBEDDINGS_TEXT" with
    | some t => simp [Side.other, Side.field, hr]
    | none => simp [Side.other, Side.field, hr]

theorem mem_submitAll (L : List Entry) :
    ∀ s x, (L.map Entry.id).Nodup → (∀ e ∈ L, (Entry.sideOf e).isSome) →
      (x ∈ (submitAll s L).2 ↔
        ∃ e, e ∈ L ∧ e.id = x ∧ ∃ sd, e.sideOf = some sd ∧
          (s.records x (Side.other sd).field).isSome) := by
  induction L with
  | nil =>
    intro s x _ _
    simp [submitAll]
  | cons e L ih =>
    intro s x hnd hrec
    obtain ⟨sd, hsd⟩ := Option.isSome_iff_exists.1 (hrec e (List.mem_cons_self _ _))
    have hnd' : (L.map Entry.id).Nodup := (List.nodup_cons.1 (by simpa using hnd)).2
    have hid : e.id ∉ L.map Entry.id := (List.nodup_cons.1 (by simpa using hnd)).1
    rw [submitAll_snd_cons, List.mem_append, submitEntry_signal_ids s e sd hsd x,
      ih (submitEntry s e).1 x hnd' (fun e' he' => hrec e' (List.mem_cons_of_mem _ he'))]
    constructor
    · rintro (⟨rfl, hfld⟩ | ⟨e', he', hex, sd', hsd', hfld⟩)
      · exact ⟨e, List.mem_cons_self _ _, rfl, sd, hsd, hfld⟩
      · have hne : ¬ x = e.id := by
          rintro rfl
          exact hid (hex ▸ List.mem_map_of_mem Entry.id he')
        rw [submitEntry_records_ne s e x hne] at hfld
        exact ⟨e', List.mem_cons_of_mem _ he', hex, sd', hsd', hfld⟩
    · rintro ⟨e', he', hex, sd', hsd', hfld⟩
      rcases List.mem_cons.1 he' with rfl | he'
      · obtain rfl : sd = sd' := by
          rw [hsd] at hsd'
          exact Option.some_injective _ hsd'
        subst hex
        exact Or.inl ⟨rfl, hfld⟩
      · have hne : ¬ x = e.id := by
          rintro rfl
          exact hid (hex ▸ List.mem_map_of_mem Entry.id he')
        rw [← submitEntry_records_ne s e x hne] at hfld
        exact Or.inr ⟨e', he', hex, sd', hsd', hfld⟩

/-! ### Further helper lemmas -/

theorem sadd_sadd_self (l : List String) (x : String) :
    sadd (sadd l x) x = sadd l x := by
  have hx : x ∈ sadd l x := (mem_sadd l x x).2 (Or.inr rfl)
  unfold sadd
  rw [if_pos]
  exact hx

theorem sideOf_of_text {e : Entry} (h : e.embedding_type = "EMBEDDINGS_TEXT") :
    e.sideOf = some Side.text := by
  unfold Entry.sideOf
  rw [h]
  simp

theorem sideOf_of_image {e : Entry} (h : e.embedding_type = "EMBEDDINGS_IMAGE") :
    e.sideOf = some Side.image := by
  unfold Entry.sideOf
  rw [h]
  simp

theorem sideOf_isSome_iff (e : Entry) :
    (e.sideOf).isSome ↔
      e.embedding_type = "EMBEDDINGS_TEXT" ∨
        e.embedding_type = "EMBEDDINGS_IMAGE" := by
  unfold Entry.sideOf
  split
  · rename_i h
    simp [h]
  · split
    · rename_i h1 h2
      simp [h1, h2]
    · rename_i h1 h2
      simp [h1, h2]

theorem ingest_empty (sink : Sink) (s : Store) :
    ingest_combined_data_bulk sink s [] = (s, Except.ok none) := rfl

theorem ingest_error_fst (sink : Sink) (s : Store) (l : List CompletedRecord)
    (err : IngestError)
    (h : (ingest_combined_data_bulk sink s l).2 = Except.error err) :
    (ingest_combined_data_bulk sink s l).1 = s := by
  unfold ingest_combined_data_bulk at h ⊢
  by_cases h1 : l.isEmpty = true
  · rw [if_pos h1]
  · rw [if_neg h1] at h ⊢
    by_cases h2 : 1 < (ingestPartitions l).length
    · rw [if_pos h2]
    · rw [if_neg h2] at h ⊢
      by_cases h3 : (ingestResponse sink l).status_code = 200
      · rw [if_pos h3] at h
        simp at h
      · rw [if_neg h3]

theorem ingest_ok_some_fst (sink : Sink) (s : Store) (l : List CompletedRecord)
    (v : Nat × String)
    (h : (ingest_combined_data_bulk sink s l).2 = Except.ok (some v)) :
    (ingest_combined_data_bulk sink s l).1 =
      delete_keys_from_redis s (l.map CompletedRecord.id) := by
  unfold ingest_combined_data_bulk at h ⊢
  by_cases h1 : l.isEmpty = true
  · rw [if_pos h1] at h
    simp at h
  · rw [if_neg h1] at h ⊢
    by_cases h2 : 1 < (ingestPartitions l).length
    · rw [if_pos h2] at h
      simp at h
    · rw [if_neg h2] at h ⊢
      by_cases h3 : (ingestResponse sink l).status_code = 200
      · rw [if_pos h3]
      · rw [if_neg h3] at h
        simp at h

theorem one_lt_length_of_two_mem {α : Type} {l : List α} {a b : α}
    (ha : a ∈ l) (hb : b ∈ l) (hne : a ≠ b) : 1 < l.length := by
  cases l with
  | nil => simp at ha
  | cons x xs =>
    cases xs with
    | nil =>
      simp at ha hb
      exact absurd (ha.trans hb.symm) hne
    | cons y ys =>
      simp [List.length]

theorem save_singleton (s : Store) (e : Entry) :
    save_embeddings_batch s [e] =
      (writeStep s s e,
       (sinter (writeStep s s e).textSet (writeStep s s e).imageSet).filterMap
         (formatRecord (writeStep s s e))) := rfl

/-! ### Claim theorems -/

/-- C1: a batch call computes the readiness-set intersection once (by
construction, `save_embeddings_batch` evaluates one `sinter` of the two
whole-store readiness sets) and its output contains a combined record
exactly for the ids — of the whole store, with no batch-membership
condition — that lie in the intersection of the post-write readiness sets
and whose stored record truly carries both sides (the defensive re-check);
the record preserves the stored payloads and the `index_name` partition
key. -/
theorem C1_batch_join_whole_store (s : Store) (L : List Entry)
    (r : CompletedRecord) :
    r ∈ (save_embeddings_batch s L).2 ↔
      completeNow (writePhase s s L) r.id ∧
        (writePhase s s L).records r.id "EMBEDDINGS_TEXT" = some r.text_embedding ∧
        (writePhase s s L).records r.id "EMBEDDINGS_IMAGE" = some r.image_embedding ∧
        r.index_name = (writePhase s s L).records r.id "index_name" := by
  rw [mem_save_snd]
  unfold completeNow
  constructor
  · rintro ⟨⟨h1, h2⟩, h3, h4, h5⟩
    exact ⟨⟨h1, h2, by simp [h3], by simp [h4]⟩, h3, h4, h5⟩
  · rintro ⟨⟨h1, h2, -, -⟩, h3, h4, h5⟩
    exact ⟨⟨h1, h2⟩, h3, h4, h5⟩

/-- C2: after a batch forward reports success (an `ok (some _)` result,
the 200 branch), none of the forwarded ids is present in the store any
more; after it reports failure (any `error` result: mixed partition or a
non-200 sink response), the store is returned exactly unchanged, so the
completed records can be re-detected and re-sent. -/
theorem C2_forward_success_deletes_failure_preserves (sink : Sink)
    (s : Store) (l : List CompletedRecord) :
    (∀ v, (ingest_combined_data_bulk sink s l).2 = Except.ok (some v) →
      ∀ x ∈ l.map CompletedRecord.id, ∀ f,
        (ingest_combined_data_bulk sink s l).1.records x f = none) ∧
    (∀ err, (ingest_combined_data_bulk sink s l).2 = Except.error err →
      (ingest_combined_data_bulk sink s l).1 = s) := by
  constructor
  · intro v hv x hx f
    rw [ingest_ok_some_fst sink s l v hv]
    unfold delete_keys_from_redis
    simp [hx]
  · intro err herr
    exact ingest_error_fst sink s l err herr

/-- C2 witness: a concrete successful forward deletes the forwarded id's
record, and a concrete failed forward returns the store unchanged. -/
theorem C2_forward_witness :
    ((ingest_combined_data_bulk (fun _ _ => ⟨200, "ok"⟩) Store.empty
        [⟨"a", "[1]", "[2]", some "i"⟩]).2 = Except.ok (some (200, "ok")) ∧
      (ingest_combined_data_bulk (fun _ _ => ⟨200, "ok"⟩) Store.empty
        [⟨"a", "[1]", "[2]", some "i"⟩]).1.records "a" "EMBEDDINGS_TEXT" = none) ∧
    ((ingest_combined_data_bulk (fun _ _ => ⟨500, "err"⟩) Store.empty
        [⟨"a", "[1]", "[2]", some "i"⟩]).2 =
        Except.error (IngestError.sinkRejected "err") ∧
      (ingest_combined_data_bulk (fun _ _ => ⟨500, "err"⟩) Store.empty
        [⟨"a", "[1]", "[2]", some "i"⟩]).1 = Store.empty) := by
  refine ⟨⟨?_, ?_⟩, ⟨?_, ?_⟩⟩
  · rfl
  · exact (C2_forward_success_deletes_failure_preserves
      (fun _ _ => ⟨200, "ok"⟩) Store.empty [⟨"a", "[1]", "[2]", some "i"⟩]).1
      (200, "ok") rfl "a" (by simp) "EMBEDDINGS_TEXT"
  · rfl
  · exact (C2_forward_success_deletes_failure_preserves
      (fun _ _ => ⟨500, "err"⟩) Store.empty [⟨"a", "[1]", "[2]", some "i"⟩]).2
      (IngestError.sinkRejected "err") rfl

/-- C4: a batch forward containing two completed records with different
partition keys fails with the mixed-partition error, returns the store
unchanged (deletes neither record), and forwards nothing: the result does
not depend on the sink at all. -/
theorem C4_mixed_partition_rejected (sink : Sink) (s : Store)
    (l : List CompletedRecord) (r1 r2 : CompletedRecord)
    (h1 : r1 ∈ l) (h2 : r2 ∈ l)
    (hne : r1.index_name ≠ r2.index_name) :
    ingest_combined_data_bulk sink s l =
      (s, Except.error IngestError.mixedPartition) := by
  have hlen : 1 < (ingestPartitions l).length := by
    apply one_lt_length_of_two_mem (a := r1.index_name) (b := r2.index_name)
    · exact List.mem_dedup.2 (List.mem_map_of_mem _ h1)
    · exact List.mem_dedup.2 (List.mem_map_of_mem _ h2)
    · exact hne
  have hemp : ¬ l.isEmpty = true := by
    cases l with
    | nil => simp at h1
    | cons a as => simp
  unfold ingest_combined_data_bulk
  rw [if_neg hemp, if_pos hlen]

/-- C4 witness: a concrete two-record batch with partition keys `"i"` and
`"j"` is rejected with `mixedPartition` and the store is unchanged. -/
theorem C4_mixed_partition_witness :
    ingest_combined_data_bulk (fun _ _ => ⟨200, "ok"⟩) Store.empty
        [⟨"a", "[1]", "[2]", some "i"⟩, ⟨"b", "[3]", "[4]", some "j"⟩] =
      (Store.empty, Except.error IngestError.mixedPartition) :=
  C4_mixed_partition_rejected (fun _ _ => ⟨200, "ok"⟩) Store.empty
    [⟨"a", "[1]", "[2]", some "i"⟩, ⟨"b", "[3]", "[4]", some "j"⟩]
    ⟨"a", "[1]", "[2]", some "i"⟩ ⟨"b", "[3]", "[4]", some "j"⟩
    (by simp) (by simp) (by decide)

/-- C9: the store-cleanup function that the forwarder's success branch
calls (`delete_keys_from_redis`, imported at line 2 and invoked at line 29
of `ingestion_service.py`) is defined by no module of the source: it is
not among the module-level names of `redis_service.py`, so the success
branch's cleanup cannot execute as written. -/
theorem C9_cleanup_symbol_undefined :
    ingestionServiceCleanupName ∉ redisServiceDefinedNames := by
  decide

theorem applyHset_entryMapping_idem (orig : Hash) (e : Entry) :
    applyHset (applyHset orig (entryMapping orig e))
      (entryMapping (applyHset orig (entryMapping orig e)) e) =
      applyHset orig (entryMapping orig e) := by
  funext f
  rw [applyHset_entryMapping_self orig e]
  rw [applyHset_entryMapping_self (fun f =>
    if f = "index_name" then some e.index_name
    else if f = e.embedding_type then some (dumps e.embedding)
    else orig f) e]
  by_cases h1 : f = "index_name"
  · simp [h1]
  · by_cases h2 : f = e.embedding_type
    · subst h2
      simp [h1]
    · simp [h1, h2]

theorem writeStep_self_idem (s : Store) (e : Entry) :
    writeStep (writeStep s s e) (writeStep s s e) e = writeStep s s e := by
  have hrecords : (writeStep (writeStep s s e) (writeStep s s e) e).records =
      (writeStep s s e).records := by
    funext k
    by_cases hk : k = e.id
    · subst hk
      have houter : (writeStep (writeStep s s e) (writeStep s s e) e).records e.id =
          applyHset ((writeStep s s e).records e.id)
            (entryMapping ((writeStep s s e).records e.id) e) := by
        unfold writeStep
        simp
      have hinner : (writeStep s s e).records e.id =
          applyHset (s.records e.id) (entryMapping (s.records e.id) e) := by
        unfold writeStep
        simp
      rw [houter, hinner, applyHset_entryMapping_idem]
    · exact records_writeStep_ne _ _ _ _ hk
  have htext : (writeStep (writeStep s s e) (writeStep s s e) e).textSet =
      (writeStep s s e).textSet := by
    by_cases ht : e.embedding_type = "EMBEDDINGS_TEXT"
    · show (if e.embedding_type = "EMBEDDINGS_TEXT"
          then sadd (writeStep s s e).textSet e.id
          else (writeStep s s e).textSet) = _
      rw [if_pos ht]
      show sadd (if e.embedding_type = "EMBEDDINGS_TEXT"
          then sadd s.textSet e.id else s.textSet) e.id = _
      rw [if_pos ht]
      show sadd (sadd s.textSet e.id) e.id =
        (if e.embedding_type = "EMBEDDINGS_TEXT"
          then sadd s.textSet e.id else s.textSet)
      rw [if_pos ht, sadd_sadd_self]
    · show (if e.embedding_type = "EMBEDDINGS_TEXT"
          then sadd (writeStep s s e).textSet e.id
          else (writeStep s s e).textSet) = _
      rw [if_neg ht]
  have himage : (writeStep (writeStep s s e) (writeStep s s e) e).imageSet =
      (writeStep s s e).imageSet := by
    by_cases ht : e.embedding_type = "EMBEDDINGS_IMAGE"
    · show (if e.embedding_type = "EMBEDDINGS_IMAGE"
          then sadd (writeStep s s e).imageSet e.id
          else (writeStep s s e).imageSet) = _
      rw [if_pos ht]
      show sadd (if e.embedding_type = "EMBEDDINGS_IMAGE"
          then sadd s.imageSet e.id else s.imageSet) e.id = _
      rw [if_pos ht]
      show sadd (sadd s.imageSet e.id) e.id =
        (if e.embedding_type = "EMBEDDINGS_IMAGE"
          then sadd s.imageSet e.id else s.imageSet)
      rw [if_pos ht, sadd_sadd_self]
    · show (if e.embedding_type = "EMBEDDINGS_IMAGE"
          then sadd (writeStep s s e).imageSet e.id
          else (writeStep s s e).imageSet) = _
      rw [if_neg ht]
  exact Store.ext hrecords htext himage

/-- C7: resubmitting the very same entry is a no-op: the second call
returns exactly the first call's result — the stored record state is
unchanged, every id's completion status is unchanged, and the completion
output of the repeat equals the first call's output, so the repeat itself
produces no completion signal that the first call did not already
produce. -/
theorem C7_duplicate_submission_noop (s : Store) (e : Entry) :
    save_embeddings_batch (save_embeddings_batch s [e]).1 [e] =
      save_embeddings_batch s [e] := by
  have hfst : (save_embeddings_batch s [e]).1 = writeStep s s e := rfl
  rw [hfst, save_singleton (writeStep s s e) e, save_singleton s e,
    writeStep_self_idem]

/-- C8 counterexample: an empty batch call does NOT return nothing when the
store still holds a completed-but-undeleted record.  After the pair for id
`"a"` has been stored (and not forwarded away), `save_embeddings_batch`
on the empty batch returns the lingering record for `"a"`, which the
aggregator would then forward. -/
theorem C8_empty_batch_counterexample :
    (save_embeddings_batch
      (save_embeddings_batch Store.empty
        [⟨"a", "EMBEDDINGS_TEXT", [1], "i"⟩,
         ⟨"a", "EMBEDDINGS_IMAGE", [2], "i"⟩]).1 []).2 ≠ [] := by
  decide

/-- C8 (amended): an empty batch writes nothing and does not fail: the
store is returned unchanged, and the forwarder treats an empty list as a
no-op success; its output is exactly the already-complete records
lingering in the whole store, so it returns nothing precisely when no id
is currently complete. -/
theorem C8_empty_batch_amended (s : Store) (sink : Sink)
    (hclean : ∀ x, ¬ completeNow s x) :
    (save_embeddings_batch s []).1 = s ∧
      (save_embeddings_batch s []).2 = [] ∧
      ingest_combined_data_bulk sink s [] = (s, Except.ok none) := by
  refine ⟨rfl, ?_, rfl⟩
  have hdef : (save_embeddings_batch s []).2 =
      (sinter s.textSet s.imageSet).filterMap (formatRecord s) := rfl
  rw [hdef, List.filterMap_eq_nil_iff]
  intro x hx
  rw [mem_sinter] at hx
  by_contra hne
  have hsome : (formatRecord s x).isSome := Option.ne_none_iff_isSome.1 hne
  rw [formatRecord_isSome] at hsome
  exact hclean x ⟨hx.1, hx.2, hsome.1, hsome.2⟩

/-- C8 witness: on the empty store (which has no complete id) the empty
batch returns the store unchanged and produces and forwards nothing. -/
theorem C8_empty_batch_witness :
    (∀ x, ¬ completeNow Store.empty x) ∧
      ((save_embeddings_batch Store.empty []).1 = Store.empty ∧
        (save_embeddings_batch Store.empty []).2 = [] ∧
        ingest_combined_data_bulk (fun _ _ => ⟨200, "ok"⟩) Store.empty [] =
          (Store.empty, Except.ok none)) := by
  have hclean : ∀ x, ¬ completeNow Store.empty x := by
    intro x hx
    exact absurd hx.1 (List.not_mem_nil x)
  exact ⟨hclean,
    C8_empty_batch_amended Store.empty (fun _ _ => ⟨200, "ok"⟩) hclean⟩

/-- C10 counterexample: for an entry whose `embedding_type` is the string
`"index_name"`, the payload is NOT stored under that field: the
`index_name` assignment (line 38) overwrites the payload assignment
(line 37) in the queued dict, so the stored value is the partition key
`"idx"`, not the dumped payload `"[1]"`. -/
theorem C10_unrecognized_type_counterexample :
    (save_embeddings_batch Store.empty
        [⟨"a", "index_name", [1], "idx"⟩]).1.records "a" "index_name" =
        some "idx" ∧
      some "idx" ≠ some (dumps [1]) := by
  constructor
  · decide
  · decide

/-- C10 (amended): an entry whose `embedding_type` is neither
`"EMBEDDINGS_TEXT"` nor `"EMBEDDINGS_IMAGE"` is added to neither
readiness set, leaves the readiness intersection unchanged (so it can
never by itself make its id complete), and — provided the type string is
also not the literal field name `"index_name"` — its payload is still
written into the record under that type as a field. -/
theorem C10_unrecognized_type_amended (s : Store) (e : Entry)
    (hT : e.embedding_type ≠ "EMBEDDINGS_TEXT")
    (hI : e.embedding_type ≠ "EMBEDDINGS_IMAGE") :
    (e.embedding_type ≠ "index_name" →
      (save_embeddings_batch s [e]).1.records e.id e.embedding_type =
        some (dumps e.embedding)) ∧
    (save_embeddings_batch s [e]).1.textSet = s.textSet ∧
    (save_embeddings_batch s [e]).1.imageSet = s.imageSet ∧
    sinter (save_embeddings_batch s [e]).1.textSet
        (save_embeddings_batch s [e]).1.imageSet =
      sinter s.textSet s.imageSet := by
  have hfst : (save_embeddings_batch s [e]).1 = writeStep s s e := rfl
  rw [hfst]
  have htext : (writeStep s s e).textSet = s.textSet := by
    show (if e.embedding_type = "EMBEDDINGS_TEXT"
        then sadd s.textSet e.id else s.textSet) = s.textSet
    rw [if_neg hT]
  have himage : (writeStep s s e).imageSet = s.imageSet := by
    show (if e.embedding_type = "EMBEDDINGS_IMAGE"
        then sadd s.imageSet e.id else s.imageSet) = s.imageSet
    rw [if_neg hI]
  refine ⟨?_, htext, himage, ?_⟩
  · intro hidx
    have hrec : (writeStep s s e).records e.id =
        applyHset (s.records e.id) (entryMapping (s.records e.id) e) := by
      unfold writeStep
      simp
    rw [hrec, applyHset_entryMapping_self]
    simp [hidx]
  · rw [htext, himage]

/-- C10 witness: a concrete entry of type `"FOO"` gets its payload stored
under field `"FOO"` while both readiness sets stay empty. -/
theorem C10_unrecognized_type_witness :
    (("FOO" : String) ≠ "EMBEDDINGS_TEXT" ∧
        ("FOO" : String) ≠ "EMBEDDINGS_IMAGE") ∧
      ((("FOO" : String) ≠ "index_name" →
        (save_embeddings_batch Store.empty
          [⟨"a", "FOO", [1], "i"⟩]).1.records "a" "FOO" =
          some (dumps [1])) ∧
      (save_embeddings_batch Store.empty
          [⟨"a", "FOO", [1], "i"⟩]).1.textSet = Store.empty.textSet ∧
      (save_embeddings_batch Store.empty
          [⟨"a", "FOO", [1], "i"⟩]).1.imageSet = Store.empty.imageSet ∧
      sinter (save_embeddings_batch Store.empty
          [⟨"a", "FOO", [1], "i"⟩]).1.textSet
        (save_embeddings_batch Store.empty
          [⟨"a", "FOO", [1], "i"⟩]).1.imageSet =
        sinter Store.empty.textSet Store.empty.imageSet) :=
  ⟨⟨by decide, by decide⟩,
    C10_unrecognized_type_amended Store.empty ⟨"a", "FOO", [1], "i"⟩
      (by decide) (by decide)⟩

theorem save_preserves_missing_image (s : Store) (b : List Entry) (x : String)
    (hset : x ∉ s.imageSet) (hrec : s.records x "EMBEDDINGS_IMAGE" = none)
    (hb : ∀ e ∈ b, e.id = x → e.embedding_type ≠ "EMBEDDINGS_IMAGE") :
    x ∉ (save_embeddings_batch s b).1.imageSet ∧
      (save_embeddings_batch s b).1.records x "EMBEDDINGS_IMAGE" = none ∧
      ∀ r ∈ (save_embeddings_batch s b).2, r.id ≠ x := by
  have hnp : ¬ providesField b x "EMBEDDINGS_IMAGE" := by
    rintro ⟨e, he, hid, hty⟩
    exact hb e he hid hty
  have hset' : x ∉ (writePhase s s b).imageSet := by
    rw [mem_writePhase_imageSet]
    rintro (h | h)
    · exact hset h
    · exact hnp h
  have hrec' : (writePhase s s b).records x "EMBEDDINGS_IMAGE" = none := by
    rw [← Option.not_isSome_iff_eq_none,
      records_writePhase_isSome s "EMBEDDINGS_IMAGE" (by decide) b s x
        (fun f hf => hf)]
    rintro (h | h)
    · rw [hrec] at h
      simp at h
    · exact hnp h
  refine ⟨hset', hrec', ?_⟩
  intro r hr hid
  rw [mem_save_snd] at hr
  exact hset' (hid ▸ hr.1.2)

theorem save_preserves_missing_text (s : Store) (b : List Entry) (x : String)
    (hset : x ∉ s.textSet) (hrec : s.records x "EMBEDDINGS_TEXT" = none)
    (hb : ∀ e ∈ b, e.id = x → e.embedding_type ≠ "EMBEDDINGS_TEXT") :
    x ∉ (save_embeddings_batch s b).1.textSet ∧
      (save_embeddings_batch s b).1.records x "EMBEDDINGS_TEXT" = none ∧
      ∀ r ∈ (save_embeddings_batch s b).2, r.id ≠ x := by
  have hnp : ¬ providesField b x "EMBEDDINGS_TEXT" := by
    rintro ⟨e, he, hid, hty⟩
    exact hb e he hid hty
  have hset' : x ∉ (writePhase s s b).textSet := by
    rw [mem_writePhase_textSet]
    rintro (h | h)
    · exact hset h
    · exact hnp h
  have hrec' : (writePhase s s b).records x "EMBEDDINGS_TEXT" = none := by
    rw [← Option.not_isSome_iff_eq_none,
      records_writePhase_isSome s "EMBEDDINGS_TEXT" (by decide) b s x
        (fun f hf => hf)]
    rintro (h | h)
    · rw [hrec] at h
      simp at h
    · exact hnp h
  refine ⟨hset', hrec', ?_⟩
  intro r hr hid
  rw [mem_save_snd] at hr
  exact hset' (hid ▸ hr.1.1)

/-- C5: an id that has only one side — the other side is neither marked
ready nor present in its record — never appears in the completion output
of any sequence of batch calls, as long as those calls only ever resubmit
sides other than the missing one for that id (in particular, however many
times the single present side is resubmitted). -/
theorem C5_single_side_never_completes (s : Store) (x : String)
    (bs : List (List Entry))
    (h : (x ∉ s.imageSet ∧ s.records x "EMBEDDINGS_IMAGE" = none ∧
            ∀ b ∈ bs, ∀ e ∈ b, e.id = x →
              e.embedding_type ≠ "EMBEDDINGS_IMAGE") ∨
         (x ∉ s.textSet ∧ s.records x "EMBEDDINGS_TEXT" = none ∧
            ∀ b ∈ bs, ∀ e ∈ b, e.id = x →
              e.embedding_type ≠ "EMBEDDINGS_TEXT")) :
    ∀ r ∈ (runBatches s bs).2, r.id ≠ x := by
  revert s
  induction bs with
  | nil =>
    intro s _ r hr
    simp [runBatches] at hr
  | cons b bs ih =>
    intro s h r hr
    have hrb : (runBatches s (b :: bs)).2 =
        (save_embeddings_batch s b).2 ++
          (runBatches (save_embeddings_batch s b).1 bs).2 := rfl
    rw [hrb, List.mem_append] at hr
    rcases h with ⟨hset, hrec, hb⟩ | ⟨hset, hrec, hb⟩
    · obtain ⟨hset', hrec', hout⟩ := save_preserves_missing_image s b x hset
        hrec (hb b (List.mem_cons_self _ _))
      rcases hr with hr | hr
      · exact hout r hr
      · exact ih (save_embeddings_batch s b).1
          (Or.inl ⟨hset', hrec',
            fun b' hb' => hb b' (List.mem_cons_of_mem _ hb')⟩) r hr
    · obtain ⟨hset', hrec', hout⟩ := save_preserves_missing_text s b x hset
        hrec (hb b (List.mem_cons_self _ _))
      rcases hr with hr | hr
      · exact hout r hr
      · exact ih (save_embeddings_batch s b).1
          (Or.inr ⟨hset', hrec',
            fun b' hb' => hb b' (List.mem_cons_of_mem _ hb')⟩) r hr

/-- C5 witness: submitting the text side of id `"x"` twice, in two batch
calls starting from the empty store, never produces a completion for
`"x"`. -/
theorem C5_single_side_witness :
    (("x" : String) ∉ Store.empty.imageSet ∧
        Store.empty.records "x" "EMBEDDINGS_IMAGE" = none ∧
        ∀ b ∈ [[Entry.mk "x" "EMBEDDINGS_TEXT" [1] "i"],
               [Entry.mk "x" "EMBEDDINGS_TEXT" [1] "i"]],
          ∀ e ∈ b, e.id = "x" → e.embedding_type ≠ "EMBEDDINGS_IMAGE") ∧
      ∀ r ∈ (runBatches Store.empty
          [[Entry.mk "x" "EMBEDDINGS_TEXT" [1] "i"],
           [Entry.mk "x" "EMBEDDINGS_TEXT" [1] "i"]]).2, r.id ≠ "x" := by
  have hhyp : ("x" : String) ∉ Store.empty.imageSet ∧
      Store.empty.records "x" "EMBEDDINGS_IMAGE" = none ∧
      ∀ b ∈ [[Entry.mk "x" "EMBEDDINGS_TEXT" [1] "i"],
             [Entry.mk "x" "EMBEDDINGS_TEXT" [1] "i"]],
        ∀ e ∈ b, e.id = "x" → e.embedding_type ≠ "EMBEDDINGS_IMAGE" :=
    ⟨by simp [Store.empty], rfl, by decide⟩
  exact ⟨hhyp, C5_single_side_never_completes Store.empty "x"
    [[Entry.mk "x" "EMBEDDINGS_TEXT" [1] "i"],
     [Entry.mk "x" "EMBEDDINGS_TEXT" [1] "i"]] (Or.inl hhyp)⟩

theorem records_writeStep_mk (a : Store) (x ty : String) (p : List Int)
    (i : String) :
    (writeStep a a (Entry.mk x ty p i)).records x = fun f =>
      if f = "index_name" then some i
      else if f = ty then some (dumps p)
      else a.records x f := by
  have h := applyHset_entryMapping_self (a.records x) (Entry.mk x ty p i)
  unfold writeStep
  simp
  exact h

theorem textSet_writeStep_mk (orig a : Store) (x ty : String) (p : List Int)
    (i : String) :
    (writeStep orig a (Entry.mk x ty p i)).textSet =
      if ty = "EMBEDDINGS_TEXT" then sadd a.textSet x else a.textSet := rfl

theorem imageSet_writeStep_mk (orig a : Store) (x ty : String) (p : List Int)
    (i : String) :
    (writeStep orig a (Entry.mk x ty p i)).imageSet =
      if ty = "EMBEDDINGS_IMAGE" then sadd a.imageSet x else a.imageSet := rfl

/-- C6 counterexample: completion is NOT triggered at the same logical
point in both orders when the id already has a side stored.  Starting from
a store already holding the text side of `"x"`, resubmitting text first
completes nothing on the first call, while submitting image first
completes `"x"` already on the first call. -/
theorem C6_commutativity_counterexample :
    "x" ∉ (save_embeddings_batch
        (save_embeddings_batch Store.empty
          [⟨"x", "EMBEDDINGS_TEXT", [1], "i"⟩]).1
        [⟨"x", "EMBEDDINGS_TEXT", [1], "i"⟩]).2.map CompletedRecord.id ∧
      "x" ∈ (save_embeddings_batch
        (save_embeddings_batch Store.empty
          [⟨"x", "EMBEDDINGS_TEXT", [1], "i"⟩]).1
        [⟨"x", "EMBEDDINGS_IMAGE", [2], "i"⟩]).2.map CompletedRecord.id := by
  constructor
  · decide
  · decide

/-- C6 (amended): submitting side A then side B yields the same final
store as B then A, from ANY starting state (field-level merge commutes);
and when the id starts with neither side marked ready, completion also
triggers at the same logical point in both orders: not on the first
submission, and on the second.  (When one side is already present, the
completion point depends on the order, per the counterexample.) -/
theorem C6_commutativity_amended (s : Store) (x : String) (p q : List Int)
    (i : String) :
    (save_embeddings_batch
        (save_embeddings_batch s [⟨x, "EMBEDDINGS_TEXT", p, i⟩]).1
        [⟨x, "EMBEDDINGS_IMAGE", q, i⟩]).1 =
      (save_embeddings_batch
        (save_embeddings_batch s [⟨x, "EMBEDDINGS_IMAGE", q, i⟩]).1
        [⟨x, "EMBEDDINGS_TEXT", p, i⟩]).1 ∧
    (x ∉ s.textSet → x ∉ s.imageSet →
      (x ∉ (save_embeddings_batch s
          [⟨x, "EMBEDDINGS_TEXT", p, i⟩]).2.map CompletedRecord.id ∧
        x ∉ (save_embeddings_batch s
          [⟨x, "EMBEDDINGS_IMAGE", q, i⟩]).2.map CompletedRecord.id ∧
        x ∈ (save_embeddings_batch
          (save_embeddings_batch s [⟨x, "EMBEDDINGS_TEXT", p, i⟩]).1
          [⟨x, "EMBEDDINGS_IMAGE", q, i⟩]).2.map CompletedRecord.id ∧
        x ∈ (save_embeddings_batch
          (save_embeddings_batch s [⟨x, "EMBEDDINGS_IMAGE", q, i⟩]).1
          [⟨x, "EMBEDDINGS_TEXT", p, i⟩]).2.map CompletedRecord.id)) := by
  have hA : (save_embeddings_batch s [⟨x, "EMBEDDINGS_TEXT", p, i⟩]).1 =
      writeStep s s (Entry.mk x "EMBEDDINGS_TEXT" p i) := rfl
  have hB : (save_embeddings_batch s [⟨x, "EMBEDDINGS_IMAGE", q, i⟩]).1 =
      writeStep s s (Entry.mk x "EMBEDDINGS_IMAGE" q i) := rfl
  have hAB : (save_embeddings_batch
      (writeStep s s (Entry.mk x "EMBEDDINGS_TEXT" p i))
      [Entry.mk x "EMBEDDINGS_IMAGE" q i]).1 =
      writeStep (writeStep s s (Entry.mk x "EMBEDDINGS_TEXT" p i))
        (writeStep s s (Entry.mk x "EMBEDDINGS_TEXT" p i))
        (Entry.mk x "EMBEDDINGS_IMAGE" q i) := rfl
  have hBA : (save_embeddings_batch
      (writeStep s s (Entry.mk x "EMBEDDINGS_IMAGE" q i))
      [Entry.mk x "EMBEDDINGS_TEXT" p i]).1 =
      writeStep (writeStep s s (Entry.mk x "EMBEDDINGS_IMAGE" q i))
        (writeStep s s (Entry.mk x "EMBEDDINGS_IMAGE" q i))
        (Entry.mk x "EMBEDDINGS_TEXT" p i) := rfl
  constructor
  · rw [hA, hB, hAB, hBA]
    refine Store.ext ?_ ?_ ?_
    · funext k
      by_cases hk : k = x
      · subst hk
        simp only [records_writeStep_mk]
        funext f
        by_cases h1 : f = "index_name"
        · simp [h1]
        · by_cases h2 : f = "EMBEDDINGS_IMAGE"
          · subst h2
            simp [h1]
          · by_cases h3 : f = "EMBEDDINGS_TEXT"
            · subst h3
              simp [h1, h2]
            · simp [h1, h2, h3]
      · rw [records_writeStep_ne _ _ _ _ hk, records_writeStep_ne _ _ _ _ hk,
          records_writeStep_ne _ _ _ _ hk, records_writeStep_ne _ _ _ _ hk]
    · simp [textSet_writeStep_mk]
    · simp [imageSet_writeStep_mk]
  · intro htx himx
    refine ⟨?_, ?_, ?_, ?_⟩
    · rw [mem_save_ids]
      intro hc
      have h2 := hc.2.1
      have hred : (writePhase s s
          [Entry.mk x "EMBEDDINGS_TEXT" p i]).imageSet = s.imageSet := rfl
      rw [hred] at h2
      exact himx h2
    · rw [mem_save_ids]
      intro hc
      have h1 := hc.1
      have hred : (writePhase s s
          [Entry.mk x "EMBEDDINGS_IMAGE" q i]).textSet = s.textSet := rfl
      rw [hred] at h1
      exact htx h1
    · rw [mem_save_ids, hA]
      refine ⟨?_, ?_, ?_, ?_⟩
      · have hred : (writePhase
            (writeStep s s (Entry.mk x "EMBEDDINGS_TEXT" p i))
            (writeStep s s (Entry.mk x "EMBEDDINGS_TEXT" p i))
            [Entry.mk x "EMBEDDINGS_IMAGE" q i]).textSet =
            sadd s.textSet x := rfl
        rw [hred]
        exact (mem_sadd _ _ _).2 (Or.inr rfl)
      · have hred : (writePhase
            (writeStep s s (Entry.mk x "EMBEDDINGS_TEXT" p i))
            (writeStep s s (Entry.mk x "EMBEDDINGS_TEXT" p i))
            [Entry.mk x "EMBEDDINGS_IMAGE" q i]).imageSet =
            sadd s.imageSet x := rfl
        rw [hred]
        exact (mem_sadd _ _ _).2 (Or.inr rfl)
      · have hred : (writePhase
            (writeStep s s (Entry.mk x "EMBEDDINGS_TEXT" p i))
            (writeStep s s (Entry.mk x "EMBEDDINGS_TEXT" p i))
            [Entry.mk x "EMBEDDINGS_IMAGE" q i]).records x =
            (writeStep (writeStep s s (Entry.mk x "EMBEDDINGS_TEXT" p i))
              (writeStep s s (Entry.mk x "EMBEDDINGS_TEXT" p i))
              (Entry.mk x "EMBEDDINGS_IMAGE" q i)).records x := rfl
        rw [hred]
        simp [records_writeStep_mk]
      · have hred : (writePhase
            (writeStep s s (Entry.mk x "EMBEDDINGS_TEXT" p i))
            (writeStep s s (Entry.mk x "EMBEDDINGS_TEXT" p i))
            [Entry.mk x "EMBEDDINGS_IMAGE" q i]).records x =
            (writeStep (writeStep s s (Entry.mk x "EMBEDDINGS_TEXT" p i))
              (writeStep s s (Entry.mk x "EMBEDDINGS_TEXT" p i))
              (Entry.mk x "EMBEDDINGS_IMAGE" q i)).records x := rfl
        rw [hred]
        simp [records_writeStep_mk]
    · rw [mem_save_ids, hB]
      refine ⟨?_, ?_, ?_, ?_⟩
      · have hred : (writePhase
            (writeStep s s (Entry.mk x "EMBEDDINGS_IMAGE" q i))
            (writeStep s s (Entry.mk x "EMBEDDINGS_IMAGE" q i))
            [Entry.mk x "EMBEDDINGS_TEXT" p i]).textSet =
            sadd s.textSet x := rfl
        rw [hred]
        exact (mem_sadd _ _ _).2 (Or.inr rfl)
      · have hred : (writePhase
            (writeStep s s (Entry.mk x "EMBEDDINGS_IMAGE" q i))
            (writeStep s s (Entry.mk x "EMBEDDINGS_IMAGE" q i))
            [Entry.mk x "EMBEDDINGS_TEXT" p i]).imageSet =
            sadd s.imageSet x := rfl
        rw [hred]
        exact (mem_sadd _ _ _).2 (Or.inr rfl)
      · have hred : (writePhase
            (writeStep s s (Entry.mk x "EMBEDDINGS_IMAGE" q i))
            (writeStep s s (Entry.mk x "EMBEDDINGS_IMAGE" q i))
            [Entry.mk x "EMBEDDINGS_TEXT" p i]).records x =
            (writeStep (writeStep s s (Entry.mk x "EMBEDDINGS_IMAGE" q i))
              (writeStep s s (Entry.mk x "EMBEDDINGS_IMAGE" q i))
              (Entry.mk x "EMBEDDINGS_TEXT" p i)).records x := rfl
        rw [hred]
        simp [records_writeStep_mk]
      · have hred : (writePhase
            (writeStep s s (Entry.mk x "EMBEDDINGS_IMAGE" q i))
            (writeStep s s (Entry.mk x "EMBEDDINGS_IMAGE" q i))
            [Entry.mk x "EMBEDDINGS_TEXT" p i]).records x =
            (writeStep (writeStep s s (Entry.mk x "EMBEDDINGS_IMAGE" q i))
              (writeStep s s (Entry.mk x "EMBEDDINGS_IMAGE" q i))
              (Entry.mk x "EMBEDDINGS_TEXT" p i)).records x := rfl
        rw [hred]
        simp [records_writeStep_mk]

/-- C6 witness: for a fresh id `"x"` on the empty store, the two orders
produce the same final store, neither completes on the first call, and
both complete on the second call. -/
theorem C6_commutativity_witness :
    (("x" : String) ∉ Store.empty.textSet ∧
        ("x" : String) ∉ Store.empty.imageSet) ∧
      (save_embeddings_batch
          (save_embeddings_batch Store.empty
            [⟨"x", "EMBEDDINGS_TEXT", [1], "i"⟩]).1
          [⟨"x", "EMBEDDINGS_IMAGE", [2], "i"⟩]).1 =
        (save_embeddings_batch
          (save_embeddings_batch Store.empty
            [⟨"x", "EMBEDDINGS_IMAGE", [2], "i"⟩]).1
          [⟨"x", "EMBEDDINGS_TEXT", [1], "i"⟩]).1 ∧
      ("x" ∉ (save_embeddings_batch Store.empty
          [⟨"x", "EMBEDDINGS_TEXT", [1], "i"⟩]).2.map CompletedRecord.id ∧
        "x" ∉ (save_embeddings_batch Store.empty
          [⟨"x", "EMBEDDINGS_IMAGE", [2], "i"⟩]).2.map CompletedRecord.id ∧
        "x" ∈ (save_embeddings_batch
          (save_embeddings_batch Store.empty
            [⟨"x", "EMBEDDINGS_TEXT", [1], "i"⟩]).1
          [⟨"x", "EMBEDDINGS_IMAGE", [2], "i"⟩]).2.map CompletedRecord.id ∧
        "x" ∈ (save_embeddings_batch
          (save_embeddings_batch Store.empty
            [⟨"x", "EMBEDDINGS_IMAGE", [2], "i"⟩]).1
          [⟨"x", "EMBEDDINGS_TEXT", [1], "i"⟩]).2.map CompletedRecord.id) := by
  have htx : ("x" : String) ∉ Store.empty.textSet := by
    simp [Store.empty]
  have himx : ("x" : String) ∉ Store.empty.imageSet := by
    simp [Store.empty]
  have h := C6_commutativity_amended Store.empty "x" [1] [2] "i"
  exact ⟨⟨htx, himx⟩, h.1, h.2 htx himx⟩

/-- C3 counterexample: batch and sequential single-path submission do NOT
always produce the same completed ids.  The batch `[("b", text)]` has
distinct ids and recognized sides, yet on a store still holding the
completed-but-undeleted pair for `"a"`, the batch path re-emits `"a"`
(whole-store re-detection) while the sequential single path emits
nothing. -/
theorem C3_batch_vs_single_counterexample :
    ((([⟨"b", "EMBEDDINGS_TEXT", [3], "i"⟩] : List Entry).map Entry.id).Nodup ∧
      ∀ e ∈ ([⟨"b", "EMBEDDINGS_TEXT", [3], "i"⟩] : List Entry),
        (Entry.sideOf e).isSome) ∧
    "a" ∈ (save_embeddings_batch
        (save_embeddings_batch Store.empty
          [⟨"a", "EMBEDDINGS_TEXT", [1], "i"⟩,
           ⟨"a", "EMBEDDINGS_IMAGE", [2], "i"⟩]).1
        [⟨"b", "EMBEDDINGS_TEXT", [3], "i"⟩]).2.map CompletedRecord.id ∧
    "a" ∉ (submitAll
        (save_embeddings_batch Store.empty
          [⟨"a", "EMBEDDINGS_TEXT", [1], "i"⟩,
           ⟨"a", "EMBEDDINGS_IMAGE", [2], "i"⟩]).1
        [⟨"b", "EMBEDDINGS_TEXT", [3], "i"⟩]).2 := by
  refine ⟨⟨by decide, by decide⟩, by decide, by decide⟩

/-- C3 (amended): for entries with pairwise distinct ids and recognized
sides, and a starting store whose readiness sets are in sync with the
records and in which no id is already complete unless it is resubmitted in
this batch, the batch path is equivalent to sequential single-path
submission: the final store is identical, and the set of completed ids is
the same — for the batch in any order (any permutation). -/
theorem C3_batch_equiv_sequential_amended (s : Store) (L : List Entry)
    (hnd : (L.map Entry.id).Nodup)
    (hrec : ∀ e ∈ L, (Entry.sideOf e).isSome)
    (hsyncT : ∀ x, (s.records x "EMBEDDINGS_TEXT").isSome → x ∈ s.textSet)
    (hsyncI : ∀ x, (s.records x "EMBEDDINGS_IMAGE").isSome → x ∈ s.imageSet)
    (hfresh : ∀ x, (s.records x "EMBEDDINGS_TEXT").isSome →
      (s.records x "EMBEDDINGS_IMAGE").isSome → x ∈ L.map Entry.id) :
    (save_embeddings_batch s L).1 = (submitAll s L).1 ∧
      ∀ L', L'.Perm L → ∀ x,
        (x ∈ (save_embeddings_batch s L).2.map CompletedRecord.id ↔
          x ∈ (submitAll s L').2) := by
  constructor
  · exact writePhase_eq_submitAll L s hnd hrec
  · intro L' hperm x
    have hndL' : (L'.map Entry.id).Nodup := ((hperm.map Entry.id).nodup_iff).2 hnd
    have hrecL' : ∀ e ∈ L', (Entry.sideOf e).isSome :=
      fun e he => hrec e (hperm.mem_iff.1 he)
    rw [mem_save_ids, mem_submitAll L' s x hndL' hrecL']
    have hRHS : (∃ e, e ∈ L' ∧ e.id = x ∧ ∃ sd, e.sideOf = some sd ∧
        (s.records x (Side.other sd).field).isSome) ↔
        ((providesField L x "EMBEDDINGS_TEXT" ∧
            (s.records x "EMBEDDINGS_IMAGE").isSome) ∨
         (providesField L x "EMBEDDINGS_IMAGE" ∧
            (s.records x "EMBEDDINGS_TEXT").isSome)) := by
      constructor
      · rintro ⟨e, he, hid, sd, hsd, hfld⟩
        have heL : e ∈ L := hperm.mem_iff.1 he
        cases sd with
        | text =>
          exact Or.inl ⟨⟨e, heL, hid, sideOf_text_type hsd⟩, hfld⟩
        | image =>
          exact Or.inr ⟨⟨e, heL, hid, (sideOf_image_type hsd).1⟩, hfld⟩
      · rintro (⟨⟨e, heL, hid, hty⟩, hfld⟩ | ⟨⟨e, heL, hid, hty⟩, hfld⟩)
        · exact ⟨e, hperm.mem_iff.2 heL, hid, Side.text, sideOf_of_text hty, hfld⟩
        · exact ⟨e, hperm.mem_iff.2 heL, hid, Side.image, sideOf_of_image hty, hfld⟩
    rw [hRHS]
    unfold completeNow
    rw [mem_writePhase_textSet, mem_writePhase_imageSet,
      records_writePhase_isSome s "EMBEDDINGS_TEXT" (by decide) L s x
        (fun f hf => hf),
      records_writePhase_isSome s "EMBEDDINGS_IMAGE" (by decide) L s x
        (fun f hf => hf)]
    have hnotboth : ¬ (providesField L x "EMBEDDINGS_TEXT" ∧
        providesField L x "EMBEDDINGS_IMAGE") := by
      rintro ⟨⟨e1, he1, hid1, hty1⟩, ⟨e2, he2, hid2, hty2⟩⟩
      have he12 : e1 = e2 :=
        List.inj_on_of_nodup_map hnd he1 he2 (hid1.trans hid2.symm)
      rw [he12] at hty1
      exact absurd (hty1.symm.trans hty2) (by decide)
    have hmap : x ∈ L.map Entry.id →
        (providesField L x "EMBEDDINGS_TEXT" ∨
          providesField L x "EMBEDDINGS_IMAGE") := by
      intro hx
      obtain ⟨e, he, hid⟩ := List.mem_map.1 hx
      have hs := hrec e he
      rw [sideOf_isSome_iff] at hs
      rcases hs with h | h
      · exact Or.inl ⟨e, he, hid, h⟩
      · exact Or.inr ⟨e, he, hid, h⟩
    constructor
    · rintro ⟨hT1, hI1, hT2, hI2⟩
      rcases hT2 with oT | pT
      · rcases hI2 with oI | pI
        · rcases hmap (hfresh x oT oI) with pT | pI
          · exact Or.inl ⟨pT, oI⟩
          · exact Or.inr ⟨pI, oT⟩
        · exact Or.inr ⟨pI, oT⟩
      · rcases hI2 with oI | pI
        · exact Or.inl ⟨pT, oI⟩
        · exact absurd ⟨pT, pI⟩ hnotboth
    · rintro (⟨pT, oI⟩ | ⟨pI, oT⟩)
      · exact ⟨Or.inr pT, Or.inl (hsyncI x oI), Or.inr pT, Or.inl oI⟩
      · exact ⟨Or.inl (hsyncT x oT), Or.inr pI, Or.inl oT, Or.inr pI⟩

/-- C3 witness: a concrete one-entry batch on the empty store (distinct
ids, recognized side, no lingering complete id) gives the same store and
the same completed ids on both paths. -/
theorem C3_batch_equiv_witness :
    ((([⟨"a", "EMBEDDINGS_TEXT", [1], "i"⟩] : List Entry).map Entry.id).Nodup ∧
      ∀ e ∈ ([⟨"a", "EMBEDDINGS_TEXT", [1], "i"⟩] : List Entry),
        (Entry.sideOf e).isSome) ∧
    ((save_embeddings_batch Store.empty
        [⟨"a", "EMBEDDINGS_TEXT", [1], "i"⟩]).1 =
      (submitAll Store.empty [⟨"a", "EMBEDDINGS_TEXT", [1], "i"⟩]).1 ∧
      ∀ L', L'.Perm [⟨"a", "EMBEDDINGS_TEXT", [1], "i"⟩] → ∀ x,
        (x ∈ (save_embeddings_batch Store.empty
            [⟨"a", "EMBEDDINGS_TEXT", [1], "i"⟩]).2.map CompletedRecord.id ↔
          x ∈ (submitAll Store.empty L').2)) := by
  have h1 : (([⟨"a", "EMBEDDINGS_TEXT", [1], "i"⟩] : List Entry).map
      Entry.id).Nodup := by decide
  have h2 : ∀ e ∈ ([⟨"a", "EMBEDDINGS_TEXT", [1], "i"⟩] : List Entry),
      (Entry.sideOf e).isSome := by decide
  have h3 : ∀ x, (Store.empty.records x "EMBEDDINGS_TEXT").isSome →
      x ∈ Store.empty.textSet := by
    intro x hx
    simp [Store.empty] at hx
  have h4 : ∀ x, (Store.empty.records x "EMBEDDINGS_IMAGE").isSome →
      x ∈ Store.empty.imageSet := by
    intro x hx
    simp [Store.empty] at hx
  have h5 : ∀ x, (Store.empty.records x "EMBEDDINGS_TEXT").isSome →
      (Store.empty.records x "EMBEDDINGS_IMAGE").isSome →
      x ∈ ([⟨"a", "EMBEDDINGS_TEXT", [1], "i"⟩] : List Entry).map Entry.id := by
    intro x hx
    simp [Store.empty] at hx
  exact ⟨⟨h1, h2⟩,
    C3_batch_equiv_sequential_amended Store.empty _ h1 h2 h3 h4 h5⟩
